import Mathlib

/-!
Verification development for the Medicare-Formulary-Lookup repository
(manim documentary scripts).

The Python sources are shallowly embedded:
* Python `str` values manipulated character by character are `List Char`;
  `str.split()` (split on whitespace runs, dropping empties) is `splitWords`.
* Python floats are idealised as `ℚ`; `int(x)` (truncation toward zero) is
  `pyInt`; `np.cos`, `np.sin`, `PI` and the numpy random source are carried in
  an `Env` record of oracle functions, since their values are external to the
  program logic.  The random source is indexed by a draw counter that the
  embedding threads exactly in the order the Python code consumes draws.
* Methods that mutate `self` are state-passing functions.
-/

/-- Whitespace test matching Python `str.split()` (space, tab, newline,
carriage return, vertical tab, form feed). -/
def isPySpace (c : Char) : Bool :=
  c = ' ' || c = '\t' || c = '\n' || c = '\r' || c = '\x0b' || c = '\x0c'

/-- Accumulator worker for `splitWords`: `acc` is the word currently being
read (left to right). -/
def splitWordsAux : List Char → List Char → List (List Char)
  | [], acc => if acc = [] then [] else [acc]
  | c :: cs, acc =>
    if isPySpace c then
      (if acc = [] then splitWordsAux cs [] else acc :: splitWordsAux cs [])
    else
      splitWordsAux cs (acc ++ [c])

/-- Python `text.split()`: the maximal whitespace-free nonempty runs of
`text`, in order. -/
def splitWords (s : List Char) : List (List Char) :=
  splitWordsAux s []

/-- Python `' '.join(words)`. -/
def joinWords : List (List Char) → List Char
  | [] => []
  | [w] => w
  | w :: ws => w ++ ' ' :: joinWords ws

/-- Python `int(x)` on a float: truncation toward zero. -/
def pyInt (x : ℚ) : ℤ :=
  if 0 ≤ x then ⌊x⌋ else ⌈x⌉

/-- One iteration of the word-wrap loop in `AdaptiveSubtitle.create_subtitle`
(src/advanced_manim_doc.py, lines 95-102).  The state is
`(lines, current_line)`; `lines` already holds joined strings, exactly as the
Python code appends `' '.join(current_line)`. -/
def wrapStep (budget : ℤ) (st : List (List Char) × List (List Char))
    (w : List Char) : List (List Char) × List (List Char) :=
  let test := joinWords (st.2 ++ [w])
  if (test.length : ℤ) ≤ budget then
    (st.1, st.2 ++ [w])
  else
    (if st.2 = [] then st.1 else st.1 ++ [joinWords st.2], [w])

/-- The whole word-wrap loop of `AdaptiveSubtitle.create_subtitle`, including
the final `if current_line: lines.append(' '.join(current_line))`. -/
def wrapLines (budget : ℤ) (ws : List (List Char)) : List (List Char) :=
  let st := ws.foldl (wrapStep budget) ([], [])
  if st.2 = [] then st.1 else st.1 ++ [joinWords st.2]

/-- The list of wrapped subtitle lines computed by
`AdaptiveSubtitle.create_subtitle` (src/advanced_manim_doc.py, lines 86-105):
`chars_per_line = int(max_width * 8.5)` and the greedy wrap above. -/
def create_subtitle_lines (text : List Char) (max_width : ℚ) :
    List (List Char) :=
  wrapLines (pyInt (max_width * (17/2))) (splitWords text)

-- ==================== sciviz_core.py: DifficultyLevel ====================

/-- `DifficultyLevel` enum of src/sciviz_core.py. -/
inductive DifficultyLevel where
  | BEGINNER
  | INTERMEDIATE
  | ADVANCED
  | EXPERT
deriving DecidableEq

/-- `list(DifficultyLevel)`: the members in declaration order. -/
def DifficultyLevel.members : List DifficultyLevel :=
  [.BEGINNER, .INTERMEDIATE, .ADVANCED, .EXPERT]

instance : BEq DifficultyLevel := ⟨fun a b => decide (a = b)⟩

/-- `DifficultyLevel.next`: `members[min(idx + 1, len(members) - 1)]`. -/
def DifficultyLevel.next (d : DifficultyLevel) : DifficultyLevel :=
  members.getD (min (members.indexOf d + 1) (members.length - 1)) d

/-- `DifficultyLevel.previous`: `members[max(idx - 1, 0)]`. -/
def DifficultyLevel.previous (d : DifficultyLevel) : DifficultyLevel :=
  members.getD (max ((members.indexOf d : ℤ) - 1) 0).toNat d

-- ============ advanced_manim_doc.py: create_network_stats ================

/-- The divisor `node_count * (node_count - 1) / 2` used by
`DataVisualization.create_network_stats` (src/advanced_manim_doc.py,
line 299). -/
def networkDivisor (node_count : ℤ) : ℚ :=
  (node_count : ℚ) * ((node_count : ℚ) - 1) / 2

/-- `efficiency = (edge_count / (node_count * (node_count - 1) / 2)) * 100`
(src/advanced_manim_doc.py, line 299). -/
def networkEfficiency (node_count edge_count : ℤ) : ℚ :=
  ((edge_count : ℚ) / networkDivisor node_count) * 100

-- ================= word-wrap: supporting lemmas =================

/-- A word as produced by `splitWords`: nonempty and whitespace-free. -/
def goodWord (w : List Char) : Prop :=
  w ≠ [] ∧ ∀ c ∈ w, isPySpace c = false

/-- A line group is as the wrap loop leaves it: joined within budget, or a
lone word that by itself exceeds the budget. -/
def fitsJ (b : ℤ) (g : List (List Char)) : Prop :=
  ((joinWords g).length : ℤ) ≤ b

/-- A flushed group that is a single word longer than the budget. -/
def singEx (b : ℤ) (g : List (List Char)) : Prop :=
  ∃ w, g = [w] ∧ b < (w.length : ℤ)

/-- Invariant of every flushed line group. -/
def lineInv (b : ℤ) (g : List (List Char)) : Prop :=
  g ≠ [] ∧ (fitsJ b g ∨ singEx b g)

theorem splitWordsAux_good :
    ∀ (s acc : List Char), (∀ c ∈ acc, isPySpace c = false) →
      ∀ w ∈ splitWordsAux s acc, goodWord w := by
  intro s
  induction s with
  | nil =>
    intro acc hacc w hw
    by_cases h : acc = [] <;> simp [splitWordsAux, h] at hw
    subst hw
    exact ⟨h, hacc⟩
  | cons c cs ih =>
    intro acc hacc w hw
    by_cases hsp : isPySpace c <;> simp [splitWordsAux, hsp] at hw
    · by_cases h : acc = [] <;> simp [h] at hw
      · exact ih [] (by simp) w hw
      · rcases hw with hw | hw
        · subst hw; exact ⟨h, hacc⟩
        · exact ih [] (by simp) w hw
    · refine ih (acc ++ [c]) ?_ w hw
      intro d hd
      rcases List.mem_append.mp hd with hd | hd
      · exact hacc d hd
      · simp at hd; subst hd
        simpa using hsp

theorem splitWordsAux_append_word :
    ∀ (w rest acc : List Char), (∀ c ∈ w, isPySpace c = false) →
      splitWordsAux (w ++ rest) acc = splitWordsAux rest (acc ++ w) := by
  intro w
  induction w with
  | nil => intro rest acc _; simp
  | cons c cs ih =>
    intro rest acc hw
    have hc : isPySpace c = false := hw c (by simp)
    have hcs : ∀ d ∈ cs, isPySpace d = false := fun d hd => hw d (by simp [hd])
    have h1 : splitWordsAux ((c :: cs) ++ rest) acc
        = splitWordsAux (cs ++ rest) (acc ++ [c]) := by
      simp [splitWordsAux, hc]
    rw [h1, ih rest (acc ++ [c]) hcs]
    simp

theorem splitWords_joinWords :
    ∀ ws : List (List Char), (∀ w ∈ ws, goodWord w) →
      splitWords (joinWords ws) = ws := by
  intro ws
  induction ws with
  | nil => intro _; rfl
  | cons w vs ih =>
    intro hg
    have hw : goodWord w := hg w (by simp)
    have hvs : ∀ v ∈ vs, goodWord v := fun v hv => hg v (by simp [hv])
    cases vs with
    | nil =>
      show splitWordsAux (joinWords [w]) [] = [w]
      have : joinWords [w] = w ++ [] := by simp [joinWords]
      rw [this, splitWordsAux_append_word w [] [] hw.2]
      simp [splitWordsAux, hw.1]
    | cons v vs2 =>
      show splitWordsAux (joinWords (w :: v :: vs2)) [] = w :: v :: vs2
      have hj : joinWords (w :: v :: vs2)
          = w ++ (' ' :: joinWords (v :: vs2)) := by
        simp [joinWords]
      rw [hj, splitWordsAux_append_word w _ [] hw.2]
      simp only [List.nil_append, splitWordsAux]
      rw [if_pos (by decide), if_neg hw.1]
      exact congrArg (List.cons w) (ih hvs)

theorem wrap_fold_inv :
    ∀ (rem : List (List Char)) (b : ℤ) (glines : List (List (List Char)))
      (cur : List (List Char)),
      (∀ g ∈ glines, lineInv b g) →
      (cur = [] ∨ fitsJ b cur ∨ singEx b cur) →
      ∃ (glines' : List (List (List Char))) (cur' : List (List Char)),
        List.foldl (wrapStep b) (glines.map joinWords, cur) rem
          = (glines'.map joinWords, cur') ∧
        glines'.flatten ++ cur' = glines.flatten ++ cur ++ rem ∧
        (∀ g ∈ glines', lineInv b g) ∧
        (cur' = [] ∨ fitsJ b cur' ∨ singEx b cur') := by
  intro rem
  induction rem with
  | nil =>
    intro b glines cur hg hc
    exact ⟨glines, cur, rfl, by simp, hg, hc⟩
  | cons w rem ih =>
    intro b glines cur hg hc
    rw [List.foldl_cons]
    by_cases hfit : ((joinWords (cur ++ [w])).length : ℤ) ≤ b
    · have hstep : wrapStep b (glines.map joinWords, cur) w
          = (glines.map joinWords, cur ++ [w]) := by
        simp [wrapStep, hfit]
      rw [hstep]
      obtain ⟨gl', cur', heq, hflat, hg', hc'⟩ :=
        ih b glines (cur ++ [w]) hg (Or.inr (Or.inl hfit))
      exact ⟨gl', cur', heq, by simpa [List.append_assoc] using hflat, hg', hc'⟩
    · by_cases hcur : cur = []
      · subst hcur
        have hstep : wrapStep b (glines.map joinWords, []) w
            = (glines.map joinWords, [w]) := by
          simp [wrapStep, hfit]
        rw [hstep]
        have hwinv : [w] = ([] : List (List Char)) ∨ fitsJ b [w] ∨ singEx b [w] := by
          right; right
          refine ⟨w, rfl, ?_⟩
          have : joinWords ([] ++ [w]) = w := by simp [joinWords]
          rw [this] at hfit
          omega
        obtain ⟨gl', cur', heq, hflat, hg', hc'⟩ := ih b glines [w] hg hwinv
        exact ⟨gl', cur', heq, by simpa using hflat, hg', hc'⟩
      · have hstep : wrapStep b (glines.map joinWords, cur) w
            = ((glines ++ [cur]).map joinWords, [w]) := by
          simp [wrapStep, hfit, hcur]
        rw [hstep]
        have hg2 : ∀ g ∈ glines ++ [cur], lineInv b g := by
          intro g hgm
          rcases List.mem_append.mp hgm with h | h
          · exact hg g h
          · simp at h; subst h
            refine ⟨hcur, ?_⟩
            rcases hc with h | h
            · exact absurd h hcur
            · exact h
        have hwinv : [w] = ([] : List (List Char)) ∨ fitsJ b [w] ∨ singEx b [w] := by
          by_cases hw : ((w.length : ℤ)) ≤ b
          · right; left
            show ((joinWords [w]).length : ℤ) ≤ b
            simpa [joinWords] using hw
          · right; right
            exact ⟨w, rfl, by omega⟩
        obtain ⟨gl', cur', heq, hflat, hg', hc'⟩ := ih b (glines ++ [cur]) [w] hg2 hwinv
        refine ⟨gl', cur', heq, ?_, hg', hc'⟩
        rw [hflat]
        simp [List.flatten_append, List.append_assoc]

theorem wrapLines_groups (b : ℤ) (ws : List (List Char)) :
    ∃ gs : List (List (List Char)),
      wrapLines b ws = gs.map joinWords ∧
      gs.flatten = ws ∧
      ∀ g ∈ gs, lineInv b g := by
  obtain ⟨gl', cur', heq, hflat, hg', hc'⟩ :=
    wrap_fold_inv ws b [] [] (by simp) (Or.inl rfl)
  simp only [List.map_nil] at heq
  by_cases hcur : cur' = []
  · refine ⟨gl', ?_, ?_, hg'⟩
    · simp [wrapLines, heq, hcur]
    · subst hcur; simpa using hflat
  · refine ⟨gl' ++ [cur'], ?_, ?_, ?_⟩
    · simp [wrapLines, heq, hcur]
    · simpa [List.flatten_append] using hflat
    · intro g hgm
      rcases List.mem_append.mp hgm with h | h
      · exact hg' g h
      · simp at h; subst h
        refine ⟨hcur, ?_⟩
        rcases hc' with h | h
        · exact absurd h hcur
        · exact h

theorem splitWords_good (s : List Char) : ∀ w ∈ splitWords s, goodWord w :=
  splitWordsAux_good s [] (by simp)

/-- C8: concatenating, in order, the whitespace-separated words of the lines
produced by the word-wrap of `AdaptiveSubtitle.create_subtitle` yields exactly
the whitespace-separated words of the input text. -/
theorem subtitle_words_preserved (text : List Char) (max_width : ℚ) :
    ((create_subtitle_lines text max_width).map splitWords).flatten
      = splitWords text := by
  obtain ⟨gs, hline, hflat, hinv⟩ :=
    wrapLines_groups (pyInt (max_width * (17/2))) (splitWords text)
  have hgood : ∀ w ∈ splitWords text, goodWord w := splitWords_good text
  rw [create_subtitle_lines, hline, List.map_map]
  have hmap : gs.map (splitWords ∘ joinWords) = gs := by
    have h1 : gs.map (splitWords ∘ joinWords) = gs.map id := by
      refine List.map_congr_left ?_
      intro g hg
      refine splitWords_joinWords g ?_
      intro w hw
      exact hgood w (hflat ▸ List.mem_flatten.mpr ⟨g, hg, hw⟩)
    simpa using h1
  rw [hmap, hflat]

/-- C1 (amended): every produced line either fits the character budget
`int(max_width * 8.5)`, or is a single word of the input text whose length
alone already exceeds the budget. -/
theorem subtitle_line_budget_or_long_word (text : List Char) (max_width : ℚ) :
    ∀ l ∈ create_subtitle_lines text max_width,
      (l.length : ℤ) ≤ pyInt (max_width * (17/2)) ∨
      (l ∈ splitWords text ∧ pyInt (max_width * (17/2)) < (l.length : ℤ)) := by
  obtain ⟨gs, hline, hflat, hinv⟩ :=
    wrapLines_groups (pyInt (max_width * (17/2))) (splitWords text)
  intro l hl
  rw [create_subtitle_lines, hline] at hl
  obtain ⟨g, hg, rfl⟩ := List.mem_map.mp hl
  rcases (hinv g hg).2 with h | ⟨w, rfl, hw⟩
  · exact Or.inl h
  · right
    have hjw : joinWords [w] = w := by simp [joinWords]
    rw [hjw]
    exact ⟨hflat ▸ List.mem_flatten.mpr ⟨[w], hg, by simp⟩, hw⟩

/-- C1 counterexample: at `max_width = 1` the budget is `int(8.5) = 8`, yet
the input "abcdefghij" produces a 10-character line. -/
theorem subtitle_budget_counterexample :
    ∃ l ∈ create_subtitle_lines ("abcdefghij".toList) 1,
      pyInt ((1 : ℚ) * (17/2)) < (l.length : ℤ) := by
  have hb : pyInt ((1 : ℚ) * (17/2)) = 8 := by norm_num [pyInt]
  rw [create_subtitle_lines, hb]
  decide

/-- Witness for `subtitle_line_budget_or_long_word` at the input "hi" with
max width 1. -/
theorem subtitle_line_budget_or_long_word_witness :
    ("hi".toList ∈ create_subtitle_lines ("hi".toList) 1) ∧
    (((("hi".toList : List Char)).length : ℤ) ≤ pyInt ((1 : ℚ) * (17/2)) ∨
      ("hi".toList ∈ splitWords ("hi".toList) ∧
        pyInt ((1 : ℚ) * (17/2)) < (("hi".toList : List Char).length : ℤ))) := by
  have hmem : "hi".toList ∈ create_subtitle_lines ("hi".toList) 1 := by
    rw [create_subtitle_lines,
      (by norm_num [pyInt] : pyInt ((1 : ℚ) * (17/2)) = 8)]
    decide
  exact ⟨hmem, subtitle_line_budget_or_long_word ("hi".toList) 1 ("hi".toList) hmem⟩

-- ============ advanced_manim_doc.py: ProceduralHyphae ============

/-- A 3-vector of (idealised) floats, as the numpy position arrays. -/
structure Vec3 where
  x : ℚ
  y : ℚ
  z : ℚ
deriving DecidableEq

/-- One emitted `CubicBezier(pos, control1, control2, end_pos)` together with
the stroke width it is given. -/
structure Seg where
  p0 : Vec3
  p1 : Vec3
  p2 : Vec3
  p3 : Vec3
  width : ℚ
deriving DecidableEq

/-- Ambient environment of `_generate_recursive`: `PI`, `np.cos`, `np.sin`
(trigonometry is opaque to the program logic) and the numpy random source.
`unif k` is the k-th raw uniform draw (nominally in [0, 1]); `choice k` is
the zero-based outcome of `np.random.choice([1, 2, 3], ...)` when consumed at
counter position `k`.  The counter is threaded in exactly the order the
Python code consumes draws, so a fixed `Env` is a fixed RNG state. -/
structure Env where
  pi : ℚ
  cos : ℚ → ℚ
  sin : ℚ → ℚ
  unif : Nat → ℚ
  choice : Nat → Fin 3

/-- `np.random.uniform(a, b)` realised from the raw draw at counter `k`. -/
def uniformAt (e : Env) (k : Nat) (a b : ℚ) : ℚ :=
  a + (b - a) * e.unif k

/-- The branching structure built by `ProceduralHyphae._generate_recursive`
(src/advanced_manim_doc.py, lines 795-853): one node per call that emits a
curve, recording the call's `depth` argument, the deterministic length scale
`length * 0.8 ** (6 - depth)` and the emitted curve; the child list holds the
structures built by the recursive calls, in call order (the flat
`self.segments` list is the preorder traversal of this tree). -/
inductive HTree where
  | node (depth : Int) (nomLen : ℚ) (seg : Seg) (children : List HTree)

/-- The curve emitted by the root call. -/
def rootSeg : HTree → Seg
  | .node _ _ s _ => s

/-- The branch loop `for _ in range(num_branches)` of `_generate_recursive`:
each iteration draws `branch_angle = current_angle + uniform(-angle_var,
angle_var)` and recurses from the parent's endpoint (captured in `child`). -/
def iterChildren (child : ℚ → Nat → Option HTree × Nat) (e : Env)
    (ca av : ℚ) : Nat → Nat → List HTree × Nat
  | 0, k => ([], k)
  | m + 1, k =>
    let ba := ca + uniformAt e k (-av) av
    let c := child ba (k + 1)
    let rest := iterChildren child e ca av m c.2
    (c.1.toList ++ rest.1, rest.2)

/-- Fuel-indexed body of `_generate_recursive`; the function is always
entered with `fuel = depth.toNat`, so running out of fuel coincides with the
`depth <= 0` early return (which is also kept as the explicit guard).
Returns the built subtree (`none` when nothing is emitted) and the advanced
draw counter. -/
def genTreeN (e : Env) (fuel : Nat) (depth : Int) (pos : Vec3)
    (angle length angle_var branch_prob width curvature : ℚ) (k : Nat) :
    Option HTree × Nat :=
  match fuel with
  | 0 => (none, k)
  | fuel + 1 =>
    if depth ≤ 0 then (none, k)
    else
      let nomLen := length * (4/5 : ℚ) ^ (6 - depth)
      let segment_length := nomLen * uniformAt e k (17/20) (23/20)
      let current_angle := angle +
        uniformAt e (k+1) (-(angle_var * (3/10))) (angle_var * (3/10))
      let end_pos : Vec3 :=
        ⟨pos.x + segment_length * e.cos current_angle,
         pos.y + segment_length * e.sin current_angle,
         pos.z⟩
      let control_offset := segment_length * curvature
      let control_angle := current_angle +
        uniformAt e (k+2) (-(e.pi/8)) (e.pi/8)
      let control1 : Vec3 :=
        ⟨pos.x + (end_pos.x - pos.x) * (33/100)
            + control_offset * e.cos control_angle,
         pos.y + (end_pos.y - pos.y) * (33/100)
            + control_offset * e.sin control_angle,
         pos.z + (end_pos.z - pos.z) * (33/100)⟩
      let control2 : Vec3 :=
        ⟨pos.x + (end_pos.x - pos.x) * (67/100)
            + control_offset * e.cos (control_angle + e.pi),
         pos.y + (end_pos.y - pos.y) * (67/100)
            + control_offset * e.sin (control_angle + e.pi),
         pos.z + (end_pos.z - pos.z) * (67/100)⟩
      let seg : Seg :=
        ⟨pos, control1, control2, end_pos, width * (17/20 : ℚ) ^ (6 - depth)⟩
      if e.unif (k+3) < branch_prob ∧ 1 < depth then
        let num_branches := (e.choice (k+4)).val + 1
        let cs := iterChildren
          (fun ba k0 => genTreeN e fuel (depth - 1) end_pos ba length
            angle_var (branch_prob * (17/20)) width curvature k0)
          e current_angle angle_var num_branches (k+5)
        (some (.node depth nomLen seg cs.1), cs.2)
      else
        let c := genTreeN e fuel (depth - 1) end_pos current_angle length
          angle_var branch_prob width curvature (k+4)
        (some (.node depth nomLen seg c.1.toList), c.2)

/-- `ProceduralHyphae._generate_recursive` with the argument order of the
source (position, angle, depth, length, angle variance, branch probability,
stroke width, curvature; `color` only styles and is omitted), plus the
current draw counter. -/
def generate_recursive (e : Env) (pos : Vec3) (angle : ℚ) (depth : Int)
    (length angle_var branch_prob width curvature : ℚ) (k : Nat) :
    Option HTree × Nat :=
  genTreeN e depth.toNat depth pos angle length angle_var branch_prob
    width curvature k

/-- `ProceduralHyphae.__init__` (src/advanced_manim_doc.py, lines 764-793):
`e` is the RNG/trig environment at entry (fixed by `random.seed` /
`np.random.seed` when a seed is supplied, the ambient global RNG state
otherwise); generation starts at `start` pointing down (angle `-PI/2`) with
draw counter 0. -/
def hyphae_init (e : Env) (start : Vec3) (depth : Int)
    (length angle_var branch_prob width curvature : ℚ) :
    Option HTree × Nat :=
  generate_recursive e start (-e.pi / 2) depth length angle_var branch_prob
    width curvature 0

/-- The recorded depth argument decreases by exactly one along every
parent-child edge, starting from the given depth. -/
inductive DepthChain : Int → HTree → Prop
  | node (d : Int) (nl : ℚ) (seg : Seg) (cs : List HTree)
      (hcs : ∀ c ∈ cs, DepthChain (d - 1) c) :
      DepthChain d (.node d nl seg cs)

/-- The emitted curve starts at the position passed in, and every child is
generated from this curve's endpoint. -/
inductive Connected : Vec3 → HTree → Prop
  | node (pos : Vec3) (d : Int) (nl : ℚ) (seg : Seg) (cs : List HTree)
      (hstart : seg.p0 = pos)
      (hcs : ∀ c ∈ cs, Connected seg.p3 c) :
      Connected pos (.node d nl seg cs)

/-- Spec-side model of the branch generator, following the spec sentence
"recursively emit a curve segment, decreasing length/width by a fixed decay
factor per depth level, optionally forking 1-3 children per node until depth
reaches zero": a node at positive depth `d` carries the current length scale
`L` and stroke width `W`; it has at most three children (at least one while
`1 < d`, none once `d = 1`, as they would be at depth 0), each generated one
level lower with both scales decayed by the fixed factors. -/
inductive SpecHyphae (lenDecay widDecay : ℚ) : Int → ℚ → ℚ → HTree → Prop
  | node (d : Int) (L W : ℚ) (seg : Seg) (cs : List HTree)
      (hd : 0 < d)
      (hw : seg.width = W)
      (hcount : cs.length ≤ 3)
      (hleaf : d = 1 → cs = [])
      (hfork : 1 < d → cs ≠ [])
      (hcs : ∀ c ∈ cs,
        SpecHyphae lenDecay widDecay (d - 1) (lenDecay * L) (widDecay * W) c) :
      SpecHyphae lenDecay widDecay d L W (.node d L seg cs)

theorem decay_step (q : ℚ) (hq : q ≠ 0) (L : ℚ) (d : Int) :
    L * q ^ (6 - (d - 1)) = q * (L * q ^ (6 - d)) := by
  rw [show (6 : ℤ) - (d - 1) = 1 + (6 - d) by ring, zpow_add₀ hq, zpow_one]
  ring

theorem iterChildren_master (P : HTree → Prop) :
    ∀ (n : Nat) (child : ℚ → Nat → Option HTree × Nat) (e : Env)
      (ca av : ℚ) (k : Nat),
      (∀ ba k0, ∃ t k1, child ba k0 = (some t, k1) ∧ P t) →
      ∃ ts k2, iterChildren child e ca av n k = (ts, k2) ∧
        ts.length = n ∧ ∀ t ∈ ts, P t := by
  intro n
  induction n with
  | zero => intro child e ca av k _; exact ⟨[], k, rfl, rfl, by simp⟩
  | succ m ih =>
    intro child e ca av k h
    obtain ⟨t, k1, hc, hP⟩ := h (ca + uniformAt e k (-av) av) (k + 1)
    obtain ⟨ts, k2, hiter, hlen, hall⟩ := ih child e ca av k1 h
    refine ⟨t :: ts, k2, ?_, by simp [hlen], ?_⟩
    · simp only [iterChildren]
      rw [hc]
      simp only [Option.toList_some]
      rw [hiter]
      rfl
    · intro t2 ht2
      rcases List.mem_cons.mp ht2 with h2 | h2
      · subst h2; exact hP
      · exact hall t2 h2

theorem gen_branch_case (e : Env) (fuel : Nat) (d : Int)
    (pos EP C1 C2 : Vec3) (L av bp w curv ca : ℚ) (k5 : Nat) (nb : Nat)
    (hd : 1 < d) (hnb : 1 ≤ nb ∧ nb ≤ 3)
    (hchild : ∀ ba k0, ∃ t k1,
      genTreeN e fuel (d - 1) EP ba L av (bp * (17/20)) w curv k0
        = (some t, k1) ∧
      (DepthChain (d - 1) t ∧ Connected EP t ∧
        SpecHyphae (4/5) (17/20) (d - 1) (L * (4/5 : ℚ) ^ (6 - (d - 1)))
          (w * (17/20 : ℚ) ^ (6 - (d - 1))) t)) :
    ∃ t k2,
      ((some (HTree.node d (L * (4/5 : ℚ) ^ (6 - d))
          ⟨pos, C1, C2, EP, w * (17/20 : ℚ) ^ (6 - d)⟩
          ((iterChildren
            (fun ba k0 => genTreeN e fuel (d - 1) EP ba L av (bp * (17/20))
              w curv k0) e ca av nb k5).1)),
        (iterChildren
          (fun ba k0 => genTreeN e fuel (d - 1) EP ba L av (bp * (17/20))
            w curv k0) e ca av nb k5).2) : Option HTree × Nat)
        = (some t, k2) ∧
      DepthChain d t ∧ Connected pos t ∧
      SpecHyphae (4/5) (17/20) d (L * (4/5 : ℚ) ^ (6 - d))
        (w * (17/20 : ℚ) ^ (6 - d)) t := by
  obtain ⟨ts, k2, hiter, hlen, hall⟩ :=
    iterChildren_master
      (fun t => DepthChain (d - 1) t ∧ Connected EP t ∧
        SpecHyphae (4/5) (17/20) (d - 1) (L * (4/5 : ℚ) ^ (6 - (d - 1)))
          (w * (17/20 : ℚ) ^ (6 - (d - 1))) t)
      nb
      (fun ba k0 => genTreeN e fuel (d - 1) EP ba L av (bp * (17/20))
        w curv k0)
      e ca av k5 hchild
  rw [hiter]
  refine ⟨_, k2, rfl, ?_, ?_, ?_⟩
  · exact DepthChain.node d _ _ ts (fun c hc => (hall c hc).1)
  · exact Connected.node pos d _ _ ts rfl (fun c hc => (hall c hc).2.1)
  · refine SpecHyphae.node d _ _ _ ts (by omega) rfl (by omega)
      (by omega) (fun _ => List.length_pos.mp (by omega)) ?_
    intro c hc
    have h := (hall c hc).2.2
    rwa [decay_step (4/5 : ℚ) (by norm_num) L d,
      decay_step (17/20 : ℚ) (by norm_num) w d] at h

theorem gen_single_case (e : Env) (fuel : Nat) (d : Int)
    (pos EP C1 C2 : Vec3) (L av bp w curv ca : ℚ) (k4 : Nat)
    (hd : 0 < d)
    (hnone : d - 1 ≤ 0 →
      genTreeN e fuel (d - 1) EP ca L av bp w curv k4 = (none, k4))
    (hsome : 0 < d - 1 → ∃ t k1,
      genTreeN e fuel (d - 1) EP ca L av bp w curv k4 = (some t, k1) ∧
      (DepthChain (d - 1) t ∧ Connected EP t ∧
        SpecHyphae (4/5) (17/20) (d - 1) (L * (4/5 : ℚ) ^ (6 - (d - 1)))
          (w * (17/20 : ℚ) ^ (6 - (d - 1))) t)) :
    ∃ t k2,
      ((some (HTree.node d (L * (4/5 : ℚ) ^ (6 - d))
          ⟨pos, C1, C2, EP, w * (17/20 : ℚ) ^ (6 - d)⟩
          ((genTreeN e fuel (d - 1) EP ca L av bp w curv k4).1.toList)),
        (genTreeN e fuel (d - 1) EP ca L av bp w curv k4).2) :
          Option HTree × Nat)
        = (some t, k2) ∧
      DepthChain d t ∧ Connected pos t ∧
      SpecHyphae (4/5) (17/20) d (L * (4/5 : ℚ) ^ (6 - d))
        (w * (17/20 : ℚ) ^ (6 - d)) t := by
  by_cases h1 : 0 < d - 1
  · obtain ⟨t1, k1, hc, hdc, hcon, hspec⟩ := hsome h1
    rw [hc]
    refine ⟨_, k1, rfl, ?_, ?_, ?_⟩
    · refine DepthChain.node d _ _ [t1] ?_
      intro c hc2
      rw [List.mem_singleton.mp hc2]
      exact hdc
    · refine Connected.node pos d _ _ [t1] rfl ?_
      intro c hc2
      rw [List.mem_singleton.mp hc2]
      exact hcon
    · refine SpecHyphae.node d _ _ _ [t1] hd rfl (by simp)
        (by intro h2; omega) (fun _ => by simp) ?_
      intro c hc2
      rw [List.mem_singleton.mp hc2]
      rwa [decay_step (4/5 : ℚ) (by norm_num) L d,
        decay_step (17/20 : ℚ) (by norm_num) w d] at hspec
  · rw [hnone (by omega)]
    refine ⟨_, k4, rfl, ?_, ?_, ?_⟩
    · exact DepthChain.node d _ _ [] (by simp)
    · exact Connected.node pos d _ _ [] rfl (by simp)
    · exact SpecHyphae.node d _ _ _ [] hd rfl (by simp)
        (fun _ => rfl) (by intro h2; omega) (by simp)

theorem genTreeN_master :
    ∀ (fuel : Nat) (e : Env) (d : Int) (pos : Vec3)
      (angle L av bp w curv : ℚ) (k : Nat),
      d.toNat = fuel →
      (d ≤ 0 → genTreeN e fuel d pos angle L av bp w curv k = (none, k)) ∧
      (0 < d → ∃ t k2,
        genTreeN e fuel d pos angle L av bp w curv k = (some t, k2) ∧
        DepthChain d t ∧ Connected pos t ∧
        SpecHyphae (4/5) (17/20) d (L * (4/5 : ℚ) ^ (6 - d))
          (w * (17/20 : ℚ) ^ (6 - d)) t) := by
  intro fuel
  induction fuel with
  | zero =>
    intro e d pos angle L av bp w curv k hfk
    exact ⟨fun _ => rfl, fun hd => by omega⟩
  | succ fuel ih =>
    intro e d pos angle L av bp w curv k hfk
    refine ⟨fun h => by omega, ?_⟩
    intro hd0
    simp only [genTreeN]
    rw [if_neg (by omega : ¬ d ≤ 0)]
    by_cases hbr : e.unif (k+3) < bp ∧ 1 < d
    · rw [if_pos hbr]
      refine gen_branch_case e fuel d pos _ _ _ L av bp w curv _ (k+5) _
        hbr.2 ?_ ?_
      · have := (e.choice (k+4)).isLt
        omega
      · intro ba k0
        exact (ih e (d-1) _ ba L av (bp * (17/20)) w curv k0 (by omega)).2
          (by omega)
    · rw [if_neg hbr]
      refine gen_single_case e fuel d pos _ _ _ L av bp w curv _ (k+4)
        hd0 ?_ ?_
      · intro h
        exact (ih e (d-1) _ _ L av bp w curv (k+4) (by omega)).1 h
      · intro h
        exact (ih e (d-1) _ _ L av bp w curv (k+4) (by omega)).2 h

/-- C2: `_generate_recursive` terminates: called with `depth <= 0` it returns
immediately (emitting nothing and consuming no draws), and the depth argument
recorded at every node of the structure it builds decreases by exactly one
along every parent-child edge, i.e. every recursive call is made with depth
decreased by exactly one. -/
theorem generate_recursive_terminates (e : Env) (pos : Vec3) (angle : ℚ)
    (depth : Int) (length angle_var branch_prob width curvature : ℚ)
    (k : Nat) :
    (depth ≤ 0 →
      generate_recursive e pos angle depth length angle_var branch_prob
        width curvature k = (none, k)) ∧
    (∀ t k2,
      generate_recursive e pos angle depth length angle_var branch_prob
        width curvature k = (some t, k2) →
      DepthChain depth t) := by
  have h := genTreeN_master depth.toNat e depth pos angle length angle_var
    branch_prob width curvature k rfl
  refine ⟨h.1, ?_⟩
  intro t k2 heq
  by_cases hd : depth ≤ 0
  · rw [generate_recursive] at heq
    rw [h.1 hd] at heq
    simp at heq
  · obtain ⟨t2, k3, heq2, hdc, _, _⟩ := h.2 (by omega)
    rw [generate_recursive] at heq
    rw [heq2] at heq
    simp only [Prod.mk.injEq, Option.some.injEq] at heq
    rw [← heq.1]
    exact hdc

/-- C3: the branch generator refines the spec model `SpecHyphae`: from any
call at positive depth it builds a tree in which every node emits exactly one
curve, the deterministic length scale decays by the fixed factor 0.8 and the
stroke width by the fixed factor 0.85 per depth level, every node forks at
most three children (at least one above depth 1, none at depth 1), and
recursion stops when depth reaches zero. -/
theorem generate_recursive_spec_model (e : Env) (pos : Vec3) (angle : ℚ)
    (depth : Int) (length angle_var branch_prob width curvature : ℚ)
    (k : Nat) (hd : 0 < depth) :
    ∃ t k2,
      generate_recursive e pos angle depth length angle_var branch_prob
        width curvature k = (some t, k2) ∧
      SpecHyphae (4/5) (17/20) depth (length * (4/5 : ℚ) ^ (6 - depth))
        (width * (17/20 : ℚ) ^ (6 - depth)) t := by
  obtain ⟨t, k2, heq, _, _, hspec⟩ :=
    (genTreeN_master depth.toNat e depth pos angle length angle_var
      branch_prob width curvature k rfl).2 hd
  exact ⟨t, k2, heq, hspec⟩

/-- C4: in every structure produced by the generator, the emitted curve of a
call starts at the position passed in, and every recursive child call starts
from the parent curve's computed end position, so each child segment's start
point equals its parent segment's end point. -/
theorem generate_recursive_connected (e : Env) (pos : Vec3) (angle : ℚ)
    (depth : Int) (length angle_var branch_prob width curvature : ℚ)
    (k : Nat) :
    ∀ t k2,
      generate_recursive e pos angle depth length angle_var branch_prob
        width curvature k = (some t, k2) →
      Connected pos t := by
  intro t k2 heq
  have h := genTreeN_master depth.toNat e depth pos angle length angle_var
    branch_prob width curvature k rfl
  by_cases hd : depth ≤ 0
  · rw [generate_recursive] at heq
    rw [h.1 hd] at heq
    simp at heq
  · obtain ⟨t2, k3, heq2, _, hcon, _⟩ := h.2 (by omega)
    rw [generate_recursive] at heq
    rw [heq2] at heq
    simp only [Prod.mk.injEq, Option.some.injEq] at heq
    rw [← heq.1]
    exact hcon

/-- An RNG/trig environment with all uniform draws 0 (one possible ambient
RNG state of an unseeded run). -/
def envA : Env := ⟨0, fun _ => 1, fun _ => 0, fun _ => 0, fun _ => 0⟩

/-- Like `envA` but with all uniform draws 1/2: a different ambient RNG
state, reached with the same constructor arguments. -/
def envB : Env := ⟨0, fun _ => 1, fun _ => 0, fun _ => 1/2, fun _ => 0⟩

/-- Witness for `generate_recursive_terminates`: at depth -3 the call returns
immediately, and the tree built at depth 1 is a depth chain. -/
theorem generate_recursive_terminates_witness :
    (generate_recursive envA ⟨0,0,0⟩ 0 (-3) 1 1 1 1 1 5 = (none, 5)) ∧
    DepthChain 1 (.node 1 0 ⟨⟨0,0,0⟩,⟨0,0,0⟩,⟨0,0,0⟩,⟨0,0,0⟩,0⟩ []) := by
  constructor
  · exact (generate_recursive_terminates envA ⟨0,0,0⟩ 0 (-3) 1 1 1 1 1 5).1
      (by norm_num)
  · exact (generate_recursive_terminates envA ⟨0,0,0⟩ 0 1 0 0 0 0 0 0).2 _ 4
      (by norm_num [generate_recursive, genTreeN, uniformAt, envA])

/-- Witness for `generate_recursive_spec_model` at depth 1 with zero length
and width scales. -/
theorem generate_recursive_spec_model_witness :
    ∃ t k2,
      generate_recursive envA ⟨0,0,0⟩ 0 1 0 0 0 0 0 0 = (some t, k2) ∧
      SpecHyphae (4/5) (17/20) 1 (0 * (4/5 : ℚ) ^ ((6:ℤ) - 1))
        (0 * (17/20 : ℚ) ^ ((6:ℤ) - 1)) t :=
  generate_recursive_spec_model envA ⟨0,0,0⟩ 0 1 0 0 0 0 0 0 (by norm_num)

/-- Witness for `generate_recursive_connected`: the tree built at depth 1
from the origin is connected to the origin. -/
theorem generate_recursive_connected_witness :
    Connected ⟨0,0,0⟩ (.node 1 0 ⟨⟨0,0,0⟩,⟨0,0,0⟩,⟨0,0,0⟩,⟨0,0,0⟩,0⟩ []) :=
  generate_recursive_connected envA ⟨0,0,0⟩ 0 1 0 0 0 0 0 0 _ 4
    (by norm_num [generate_recursive, genTreeN, uniformAt, envA])

/-- C5 counterexample: two runs of the hyphae construction with identical
constructor arguments (same start, depth, length, angle variance, branch
probability, stroke width, curvature) but distinct ambient RNG states — the
situation of two unseeded runs — emit different root curves. -/
theorem hyphae_unseeded_runs_differ :
    (hyphae_init envA ⟨0,0,0⟩ 1 1 0 0 1 0).1.map rootSeg
      ≠ (hyphae_init envB ⟨0,0,0⟩ 1 1 0 0 1 0).1.map rootSeg := by
  norm_num [hyphae_init, generate_recursive, genTreeN, uniformAt, envA, envB,
    rootSeg]

/-- C5 (amended): both routines are deterministic as functions of their
arguments together with the random source.  The hyphae construction returns
identical output for any two environments that agree pointwise — in
particular for two runs whose RNG state is fixed by the same seed — and the
word-wrap depends only on the words of the text and on the width. -/
theorem hyphae_wrap_deterministic :
    (∀ (e1 e2 : Env), e1.pi = e2.pi →
      (∀ q, e1.cos q = e2.cos q) → (∀ q, e1.sin q = e2.sin q) →
      (∀ n, e1.unif n = e2.unif n) → (∀ n, e1.choice n = e2.choice n) →
      ∀ (start : Vec3) (depth : Int) (length angle_var branch_prob width
        curvature : ℚ),
        hyphae_init e1 start depth length angle_var branch_prob width
          curvature
          = hyphae_init e2 start depth length angle_var branch_prob width
            curvature) ∧
    (∀ (t1 t2 : List Char) (max_width : ℚ), splitWords t1 = splitWords t2 →
      create_subtitle_lines t1 max_width = create_subtitle_lines t2
        max_width) := by
  constructor
  · intro e1 e2 hpi hcos hsin hunif hchoice start depth length angle_var
      branch_prob width curvature
    have he : e1 = e2 := by
      cases e1
      cases e2
      simp only [Env.mk.injEq]
      simp only at hpi hcos hsin hunif hchoice
      exact ⟨hpi, funext hcos, funext hsin, funext hunif, funext hchoice⟩
    rw [he]
  · intro t1 t2 max_width h
    simp only [create_subtitle_lines]
    rw [h]

/-- Witness for `hyphae_wrap_deterministic`: a fixed environment compared
with itself, and two texts with the same words but different whitespace. -/
theorem hyphae_wrap_deterministic_witness :
    (hyphae_init envA ⟨0,0,0⟩ 2 1 1 1 1 1
      = hyphae_init envA ⟨0,0,0⟩ 2 1 1 1 1 1) ∧
    create_subtitle_lines (" a".toList) 1
      = create_subtitle_lines ("a ".toList) 1 := by
  constructor
  · exact hyphae_wrap_deterministic.1 envA envA rfl (fun _ => rfl)
      (fun _ => rfl) (fun _ => rfl) (fun _ => rfl) ⟨0,0,0⟩ 2 1 1 1 1 1
  · exact hyphae_wrap_deterministic.2 (" a".toList) ("a ".toList) 1
      (by decide)

/-- C9: `DifficultyLevel.next` and `DifficultyLevel.previous` are total and
clamp at the extremes: `next` moves up exactly one level except at `EXPERT`,
`previous` moves down exactly one level except at `BEGINNER`, so both stay in
the enumeration and are idempotent at their endpoints. -/
theorem difficulty_next_previous_clamp :
    (DifficultyLevel.next .BEGINNER = .INTERMEDIATE ∧
     DifficultyLevel.next .INTERMEDIATE = .ADVANCED ∧
     DifficultyLevel.next .ADVANCED = .EXPERT ∧
     DifficultyLevel.next .EXPERT = .EXPERT) ∧
    (DifficultyLevel.previous .EXPERT = .ADVANCED ∧
     DifficultyLevel.previous .ADVANCED = .INTERMEDIATE ∧
     DifficultyLevel.previous .INTERMEDIATE = .BEGINNER ∧
     DifficultyLevel.previous .BEGINNER = .BEGINNER) := by
  decide

/-- C10: `create_network_stats` computes the efficiency as `edge_count`
divided by `node_count * (node_count - 1) / 2` (times 100); for
`node_count >= 2` that divisor is nonzero, and `node_count` 0 or 1 are the
only values at which the divisor vanishes. -/
theorem network_stats_divisor :
    (∀ node_count edge_count : ℤ,
      networkEfficiency node_count edge_count
        = ((edge_count : ℚ) / networkDivisor node_count) * 100) ∧
    (∀ node_count : ℤ, 2 ≤ node_count → networkDivisor node_count ≠ 0) ∧
    (∀ node_count : ℤ,
      networkDivisor node_count = 0 ↔ node_count = 0 ∨ node_count = 1) := by
  have key : ∀ n : ℤ, networkDivisor n = 0 ↔ n = 0 ∨ n = 1 := by
    intro n
    unfold networkDivisor
    rw [div_eq_zero_iff]
    constructor
    · rintro (h | h)
      · rcases mul_eq_zero.mp h with h | h
        · left; exact_mod_cast h
        · right
          have : (n : ℚ) = 1 := by linarith
          exact_mod_cast this
      · norm_num at h
    · rintro (rfl | rfl) <;> norm_num
  refine ⟨fun _ _ => rfl, ?_, key⟩
  intro n hn h
  rcases (key n).mp h with rfl | rfl <;> omega

/-- Witness for `network_stats_divisor` at concrete node counts 5 and 1. -/
theorem network_stats_divisor_witness :
    networkDivisor 5 ≠ 0 ∧
    (networkDivisor 1 = 0 ↔ (1 : ℤ) = 0 ∨ (1 : ℤ) = 1) :=
  ⟨network_stats_divisor.2.1 5 (by norm_num), network_stats_divisor.2.2 1⟩

-- ============ manim-documentary.py: generate_all_audio ============

/-- The narration segments of `MycorrhizalDocumentary.generate_all_audio`
(src/manim-documentary.py, lines 43-55), as (text, filename) pairs in source
order. -/
def segments : List (String × String) :=
  [
    ("In the cathedral silence of an old-growth forest, a secret conversation unfolds. Not in the rustling canopy above, but in the darkness beneath our feet. Here, in the soil, an ancient partnership sustains the very lungs of our planet.",
      "01_opening"),
    ("These are mycorrhizal fungi—from the Greek \x27mykes\x27 meaning fungus, and \x27rhiza\x27 meaning root. For over four hundred million years, since plants first colonized land, this alliance has shaped terrestrial ecosystems. Today, ninety percent of all land plants depend upon it.",
      "02_intro"),
    ("The fungal partner extends thread-like hyphae—structures so fine that a single gram of forest soil may contain several kilometers of them. These hyphae colonize plant roots, but they don\x27t simply attach. They integrate. In ectomycorrhizae, they form a sheath around root tips and penetrate between cortical cells. In endomycorrhizae, they actually breach the cell wall, though never the cell membrane itself.",
      "03_colonization"),
    ("What drives this intimacy? Economics. The tree, through photosynthesis, is a factory of carbohydrates. Sugars flow from leaves to roots, and from roots to fungi—up to thirty percent of all photosynthate produced by the tree. This is not charity. This is commerce.",
      "04_carbon"),
    ("In exchange, the fungus offers what the tree cannot easily obtain: reach. While root hairs might extend mere millimeters into soil, fungal hyphae venture centimeters, even meters beyond. Their surface area for absorption exceeds that of roots by a factor of one hundred or more. They mine the soil for phosphorus—often locked in insoluble compounds—and nitrogen, and deliver water during drought.",
      "05_nutrients"),
    ("But the network doesn\x27t stop at a single tree. Mycorrhizal fungi are rarely monogamous. A single fungal individual may connect to multiple trees, even different species. And a single tree may host dozens of fungal partners. What emerges is a common mycorrhizal network—what some researchers have termed the \x27wood wide web.\x27",
      "06_network"),
    ("Through these networks, resources move between trees. Older \x27mother trees,\x27 with deeper roots and established fungal partnerships, have been shown to transfer carbon to younger seedlings in their shadow—seedlings that cannot yet photosynthesize enough to survive alone. It\x27s not altruism in the human sense, but it functions as such.",
      "07_transfer"),
    ("The network carries more than nutrients. When a tree is attacked by insects, it produces defense chemicals. But it also sends signals through the mycorrhizal network—chemical warnings that prompt neighboring trees to elevate their own defenses before they\x27re touched. The forest, it seems, has an immune system.",
      "08_defense"),
    ("Yet this partnership is not without its darker aspects. Some plants have lost their chlorophyll entirely, becoming mycoheterotrophs—parasites on the network, taking carbon without contributing. And certain fungi, in times of scarcity, may extract more from their hosts than they provide. Symbiosis exists on a continuum between mutualism and exploitation.",
      "09_complexity"),
    ("As we stand in the forest, it\x27s worth remembering: we\x27re not looking at individuals. We\x27re looking at a superorganism—a distributed intelligence where tree and fungus are as interconnected as neurons in a brain. Every footstep falls upon billions of transactions, an economy far older than our own, operating on principles we\x27re only beginning to decode.",
      "10_conclusion"),
    ("The forests we see are merely the fruiting bodies of a deeper collaboration. And in protecting them, we protect not trees alone, but the ancient covenant that made the green world possible.",
      "11_closing")
  ]

/-- `f"audio/segment_{filename}.mp3"` (line 59). -/
def audioPath (filename : String) : String :=
  "audio/segment_" ++ filename ++ ".mp3"

/-- `generate_all_audio` (src/manim-documentary.py, lines 41-63) run against
a file system described by `present` (which paths exist): the list of
(path, text) speech files it saves via `gTTS(...).save`, in loop order; a
segment whose path already exists is skipped. -/
def generate_all_audio (present : String → Bool) :
    List (String × String) :=
  segments.foldl
    (fun acc s =>
      if present (audioPath s.2) then acc else acc ++ [(audioPath s.2, s.1)])
    []

/-- The file system after one call: the original files plus everything the
call wrote. -/
def fsAfter (present : String → Bool) : String → Bool :=
  fun p => present p || (generate_all_audio present).any (fun w => w.1 == p)

theorem generate_all_audio_filterMap (present : String → Bool) :
    generate_all_audio present = segments.filterMap
      (fun s => if present (audioPath s.2) then none
        else some (audioPath s.2, s.1)) := by
  have h : ∀ (l : List (String × String)) (acc : List (String × String)),
      l.foldl (fun acc s => if present (audioPath s.2) then acc
        else acc ++ [(audioPath s.2, s.1)]) acc
      = acc ++ l.filterMap (fun s => if present (audioPath s.2) then none
          else some (audioPath s.2, s.1)) := by
    intro l
    induction l with
    | nil => intro acc; simp
    | cons s l ih =>
      intro acc
      rw [List.foldl_cons, List.filterMap_cons]
      by_cases hp : present (audioPath s.2) = true
      · simp only [hp, if_true]
        rw [ih]
      · simp only [hp, if_false, Bool.false_eq_true]
        rw [ih]
        simp
  simpa using h segments []

theorem generate_all_audio_skips (present : String → Bool)
    (h : ∀ s ∈ segments, present (audioPath s.2) = true) :
    generate_all_audio present = [] := by
  rw [generate_all_audio_filterMap]
  rw [List.filterMap_eq_nil_iff]
  intro s hs
  rw [if_pos (h s hs)]

theorem generate_all_audio_complete (present : String → Bool) :
    ∀ s ∈ segments, fsAfter present (audioPath s.2) = true := by
  intro s hs
  unfold fsAfter
  by_cases hp : present (audioPath s.2) = true
  · simp [hp]
  · simp only [Bool.or_eq_true]
    right
    rw [List.any_eq_true]
    refine ⟨(audioPath s.2, s.1), ?_, by simp⟩
    rw [generate_all_audio_filterMap]
    exact List.mem_filterMap.mpr ⟨s, hs, by rw [if_neg hp]⟩

/-- C6: every file `generate_all_audio` writes is the speech audio of some
narration segment, saved at `audio/segment_<name>.mp3` keyed by that
segment's name and only when that path did not exist; when every segment's
path exists it writes nothing; in particular a second call, run on the file
system left by any first call, writes nothing. -/
theorem generate_all_audio_paths_and_skip :
    (∀ (present : String → Bool) (wpath wtext : String),
      (wpath, wtext) ∈ generate_all_audio present →
      ∃ name, (wtext, name) ∈ segments ∧ wpath = audioPath name ∧
        present (audioPath name) = false) ∧
    (∀ present : String → Bool,
      (∀ s ∈ segments, present (audioPath s.2) = true) →
      generate_all_audio present = []) ∧
    (∀ present : String → Bool,
      generate_all_audio (fsAfter present) = []) := by
  refine ⟨?_, fun present h => generate_all_audio_skips present h,
    fun present => generate_all_audio_skips (fsAfter present)
      (generate_all_audio_complete present)⟩
  intro present wpath wtext hmem
  rw [generate_all_audio_filterMap] at hmem
  obtain ⟨s, hs, hf⟩ := List.mem_filterMap.mp hmem
  by_cases hp : present (audioPath s.2) = true
  · rw [if_pos hp] at hf
    cases hf
  · rw [if_neg hp] at hf
    simp only [Option.some.injEq, Prod.mk.injEq] at hf
    refine ⟨s.2, ?_, hf.1.symm, by simpa using hp⟩
    rw [← hf.2, Prod.mk.eta]
    exact hs

set_option maxRecDepth 4000 in
/-- Witness for `generate_all_audio_paths_and_skip`: the first segment on an
empty file system, and a call on a file system that has every file. -/
theorem generate_all_audio_paths_and_skip_witness :
    (∃ name,
      ("In the cathedral silence of an old-growth forest, a secret conversation unfolds. Not in the rustling canopy above, but in the darkness beneath our feet. Here, in the soil, an ancient partnership sustains the very lungs of our planet.",
        name) ∈ segments ∧
      "audio/segment_01_opening.mp3" = audioPath name ∧
      (fun _ : String => false) (audioPath name) = false) ∧
    generate_all_audio (fun _ => true) = [] := by
  constructor
  · refine generate_all_audio_paths_and_skip.1 (fun _ => false) _ _ ?_
    decide
  · exact generate_all_audio_paths_and_skip.2.1 (fun _ => true)
      (fun s _ => rfl)

-- ============ sciviz_core.py: EducationalScene metadata ============

namespace SciViz

/-- `BloomLevel` enum of src/sciviz_core.py. -/
inductive BloomLevel where
  | REMEMBER
  | UNDERSTAND
  | APPLY
  | ANALYZE
  | EVALUATE
  | CREATE
deriving DecidableEq

/-- `InteractionType` enum of src/sciviz_core.py. -/
inductive InteractionType where
  | SLIDER
  | BUTTON
  | TOGGLE
  | INPUT
  | DROPDOWN
  | CANVAS
deriving DecidableEq

/-- `LearningObjective` dataclass.  `Dict[str, Any]` payloads are modelled as
string association lists and `Any` values as strings: the scene methods never
inspect them. -/
structure LearningObjective where
  id : String
  description : String
  bloom_level : BloomLevel
  assessment_method : String
  success_criteria : List (String × String)
  tags : List String

/-- `Concept` dataclass. -/
structure Concept where
  id : String
  name : String
  definition : String
  examples : List String
  prerequisites : List String
  related : List String
  difficulty : DifficultyLevel
  bloom_level : BloomLevel

/-- `InteractiveElement` dataclass. -/
structure InteractiveElement where
  id : String
  type : InteractionType
  label : String
  target : String
  range : Option (ℚ × ℚ)
  default : Option String
  callback : Option String
  learning_hook : Option String
  description : String

/-- `Question` dataclass. -/
structure Question where
  id : String
  text : String
  type : String
  options : Option (List String)
  correct_answer : Option String
  points : Int
  explanation : String

/-- `AssessmentCheckpoint` dataclass. -/
structure AssessmentCheckpoint where
  timestamp : ℚ
  question : Question
  feedback_correct : String
  feedback_incorrect : String
  hints : List String
  related_concepts : List String

/-- `NarrativeSegment` dataclass. -/
structure NarrativeSegment where
  start_time : ℚ
  end_time : ℚ
  text : String
  position : String
  style : List (String × String)

/-- The `export_data` dictionary initialised in `EducationalScene.__init__`. -/
structure ExportData where
  metadata : List (String × String)
  timeline : List String
  interactions : List String
  assessments : List String

/-- The mutable state of `EducationalScene` (src/sciviz_core.py,
lines 135-168), one field per attribute set in `__init__`. -/
structure EducationalScene where
  scene_id : String
  title : String
  description : String
  duration : ℚ
  objectives : List LearningObjective
  concepts : List Concept
  prerequisites : List String
  difficulty : DifficultyLevel
  interactions : List InteractiveElement
  interactive_state : List (String × String)
  assessments : List AssessmentCheckpoint
  quiz_results : List (String × Bool)
  narrative : List NarrativeSegment
  current_subtitle : Option String
  export_data : ExportData

/-- `EducationalScene.add_objective` (lines 174-177): appends and returns the
objective. -/
def add_objective (s : EducationalScene) (objective : LearningObjective) :
    EducationalScene × LearningObjective :=
  ({ s with objectives := s.objectives ++ [objective] }, objective)

/-- `EducationalScene.add_concept` (lines 183-186): appends and returns the
concept. -/
def add_concept (s : EducationalScene) (concept : Concept) :
    EducationalScene × Concept :=
  ({ s with concepts := s.concepts ++ [concept] }, concept)

/-- `EducationalScene.add_prerequisite` (lines 188-190): appends the id. -/
def add_prerequisite (s : EducationalScene) (prereq_id : String) :
    EducationalScene :=
  { s with prerequisites := s.prerequisites ++ [prereq_id] }

/-- C7: each metadata add operation only appends to its own list (returning
its argument where the source does) and leaves every other field of the
scene unchanged. -/
theorem add_operations_frame (s : EducationalScene)
    (objective : LearningObjective) (concept : Concept)
    (prereq_id : String) :
    ((add_objective s objective).1.objectives
        = s.objectives ++ [objective] ∧
      (add_objective s objective).2 = objective ∧
      (add_objective s objective).1.scene_id = s.scene_id ∧
      (add_objective s objective).1.title = s.title ∧
      (add_objective s objective).1.description = s.description ∧
      (add_objective s objective).1.duration = s.duration ∧
      (add_objective s objective).1.concepts = s.concepts ∧
      (add_objective s objective).1.prerequisites = s.prerequisites ∧
      (add_objective s objective).1.difficulty = s.difficulty ∧
      (add_objective s objective).1.interactions = s.interactions ∧
      (add_objective s objective).1.interactive_state
        = s.interactive_state ∧
      (add_objective s objective).1.assessments = s.assessments ∧
      (add_objective s objective).1.quiz_results = s.quiz_results ∧
      (add_objective s objective).1.narrative = s.narrative ∧
      (add_objective s objective).1.current_subtitle
        = s.current_subtitle ∧
      (add_objective s objective).1.export_data = s.export_data) ∧
    ((add_concept s concept).1.concepts = s.concepts ++ [concept] ∧
      (add_concept s concept).2 = concept ∧
      (add_concept s concept).1.scene_id = s.scene_id ∧
      (add_concept s concept).1.title = s.title ∧
      (add_concept s concept).1.description = s.description ∧
      (add_concept s concept).1.duration = s.duration ∧
      (add_concept s concept).1.objectives = s.objectives ∧
      (add_concept s concept).1.prerequisites = s.prerequisites ∧
      (add_concept s concept).1.difficulty = s.difficulty ∧
      (add_concept s concept).1.interactions = s.interactions ∧
      (add_concept s concept).1.interactive_state = s.interactive_state ∧
      (add_concept s concept).1.assessments = s.assessments ∧
      (add_concept s concept).1.quiz_results = s.quiz_results ∧
      (add_concept s concept).1.narrative = s.narrative ∧
      (add_concept s concept).1.current_subtitle = s.current_subtitle ∧
      (add_concept s concept).1.export_data = s.export_data) ∧
    ((add_prerequisite s prereq_id).prerequisites
        = s.prerequisites ++ [prereq_id] ∧
      (add_prerequisite s prereq_id).scene_id = s.scene_id ∧
      (add_prerequisite s prereq_id).title = s.title ∧
      (add_prerequisite s prereq_id).description = s.description ∧
      (add_prerequisite s prereq_id).duration = s.duration ∧
      (add_prerequisite s prereq_id).objectives = s.objectives ∧
      (add_prerequisite s prereq_id).concepts = s.concepts ∧
      (add_prerequisite s prereq_id).difficulty = s.difficulty ∧
      (add_prerequisite s prereq_id).interactions = s.interactions ∧
      (add_prerequisite s prereq_id).interactive_state
        = s.interactive_state ∧
      (add_prerequisite s prereq_id).assessments = s.assessments ∧
      (add_prerequisite s prereq_id).quiz_results = s.quiz_results ∧
      (add_prerequisite s prereq_id).narrative = s.narrative ∧
      (add_prerequisite s prereq_id).current_subtitle
        = s.current_subtitle ∧
      (add_prerequisite s prereq_id).export_data = s.export_data) := by
  and_intros <;> rfl

end SciViz
